import Mathlib

/-!
Shallow embedding of the workflow command utilities of the repository
(`src/clean_interfaces/workflow/test_commands.py`,
`src/clean_interfaces/workflow/linter.py`,
`src/clean_interfaces/workflow/tdd.py`).

Pure functions of the source are translated to Lean functions; the
subprocess boundary is modelled by an explicit outcome value handed to the
executor; Python exceptions are modelled with `Except`.  Python strings are
modelled by Lean `String`; character classes (such as `str.isspace`) are
modelled over the ASCII range that the source exercises.
-/

/-! Character and string constants used throughout the source. -/

/-- Single quote character. -/
def sqChar : Char := '\''

/-- Double quote character. -/
def dqChar : Char := '"'

/-- Backslash character. -/
def bsChar : Char := '\\'

/-- Dollar character. -/
def dollarChar : Char := '$'

/-- Backquote character (U+0060). -/
def backquoteChar : Char := Char.ofNat 96

/-- Single quote as a one character string. -/
def sqStr : String := String.mk [sqChar]

/-- Space as a one character string. -/
def spaceStr : String := " "

/-- Newline as a one character string. -/
def newlineStr : String := "\n"

/-- Two consecutive newlines, the blank line separator of the source. -/
def doubleNewline : String := "\n\n"

/-! Python string helpers used by the source. -/

/-- Model of Python `str.isspace` on the ASCII range: space, tab, newline,
carriage return, vertical tab, form feed and the ASCII separator block.
Unicode white space beyond ASCII is not modelled. -/
def pyIsSpace (c : Char) : Bool :=
  c == ' ' || c == '\t' || c == '\n' || c == '\r' ||
    c == Char.ofNat 11 || c == Char.ofNat 12 ||
    c == Char.ofNat 28 || c == Char.ofNat 29 || c == Char.ofNat 30 || c == Char.ofNat 31

/-- Model of Python `str.strip()` with no argument: drop leading and trailing
white space characters. -/
def pyStrip (s : String) : String :=
  String.mk (((s.toList.dropWhile pyIsSpace).reverse.dropWhile pyIsSpace).reverse)

/-- Replace every occurrence of a single character by a replacement character
list, the model of Python `str.replace` for a one character pattern. -/
def replaceChar (target : Char) (repl : List Char) : List Char → List Char
  | [] => []
  | c :: rest =>
    if c == target then repl ++ replaceChar target repl rest
    else c :: replaceChar target repl rest

/-! Model of Python `shlex.split` in POSIX mode (`comments=False`,
`posix=True`, `whitespace_split=True`), the tokenizer the source delegates
to.  The lexer is a state machine over the characters of the input; an
unbalanced quote or a trailing escape raises `ValueError`, modelled with
`Except.error`. -/

/-- White space characters recognised by the shlex lexer. -/
def isShlexWhitespace (c : Char) : Bool :=
  c == ' ' || c == '\t' || c == '\r' || c == '\n'

/-- Error message of shlex for an unbalanced quotation. -/
def noClosingQuotationMessage : String := "No closing quotation"

/-- Error message of shlex for a trailing escape character. -/
def noEscapedCharacterMessage : String := "No escaped character"

/-- States of the shlex lexer: between tokens, inside an unquoted word,
inside a quoted section, after an escape character outside quotes, and
after an escape character inside double quotes. -/
inductive ShlexState where
  | betweenTokens
  | word
  | inQuote (q : Char)
  | escapedOuter
  | escapedInQuote (q : Char)
deriving DecidableEq

/-- One pass of the shlex lexer over the remaining characters, carrying the
current state, the token accumulated so far, whether the current token saw a
quoted section, and the tokens already emitted. -/
def shlexSplitAux : ShlexState → List Char → Bool → List String → List Char →
    Except String (List String)
  | .betweenTokens, _token, _quoted, acc, [] => .ok acc
  | .word, token, quoted, acc, [] =>
    if token.isEmpty && !quoted then .ok acc else .ok (acc ++ [String.mk token])
  | .inQuote _, _token, _quoted, _acc, [] => .error noClosingQuotationMessage
  | .escapedOuter, _token, _quoted, _acc, [] => .error noEscapedCharacterMessage
  | .escapedInQuote _, _token, _quoted, _acc, [] => .error noEscapedCharacterMessage
  | .betweenTokens, token, quoted, acc, c :: rest =>
    if isShlexWhitespace c then
      if token.isEmpty && !quoted then shlexSplitAux .betweenTokens token quoted acc rest
      else shlexSplitAux .betweenTokens [] false (acc ++ [String.mk token]) rest
    else if c == bsChar then shlexSplitAux .escapedOuter token quoted acc rest
    else if c == sqChar || c == dqChar then shlexSplitAux (.inQuote c) token quoted acc rest
    else shlexSplitAux .word [c] quoted acc rest
  | .word, token, quoted, acc, c :: rest =>
    if isShlexWhitespace c then
      if token.isEmpty && !quoted then shlexSplitAux .betweenTokens token quoted acc rest
      else shlexSplitAux .betweenTokens [] false (acc ++ [String.mk token]) rest
    else if c == bsChar then shlexSplitAux .escapedOuter token quoted acc rest
    else if c == sqChar || c == dqChar then shlexSplitAux (.inQuote c) token quoted acc rest
    else shlexSplitAux .word (token ++ [c]) quoted acc rest
  | .inQuote q, token, _quoted, acc, c :: rest =>
    if c == q then shlexSplitAux .word token true acc rest
    else if q == dqChar && c == bsChar then
      shlexSplitAux (.escapedInQuote q) token true acc rest
    else shlexSplitAux (.inQuote q) (token ++ [c]) true acc rest
  | .escapedOuter, token, quoted, acc, c :: rest =>
    shlexSplitAux .word (token ++ [c]) quoted acc rest
  | .escapedInQuote q, token, quoted, acc, c :: rest =>
    if c != bsChar && c != q then
      shlexSplitAux (.inQuote q) (token ++ [bsChar, c]) quoted acc rest
    else shlexSplitAux (.inQuote q) (token ++ [c]) quoted acc rest

/-- Model of Python `shlex.split` as used by the source. -/
def shlexSplit (s : String) : Except String (List String) :=
  shlexSplitAux .betweenTokens [] false [] s.toList

/-! Model of Python `shlex.quote`, used by the source to display commands. -/

/-- Characters the shlex quoting regex treats as safe: ASCII word characters
and the punctuation set of the stdlib pattern. -/
def shlexSafeChar (c : Char) : Bool :=
  c.isAlphanum || c == '_' || c == '@' || c == '%' || c == '+' || c == '=' ||
    c == ':' || c == ',' || c == '.' || c == '/' || c == '-'

/-- Replacement that shlex.quote applies to an embedded single quote:
close the quote, emit a double quoted single quote, reopen the quote. -/
def shlexQuoteEscape : List Char := [sqChar, dqChar, sqChar, dqChar, sqChar]

/-- Model of Python `shlex.quote`. -/
def shlexQuote (s : String) : String :=
  if s = "" then sqStr ++ sqStr
  else if s.toList.all shlexSafeChar then s
  else sqStr ++ String.mk (replaceChar sqChar shlexQuoteEscape s.toList) ++ sqStr

/-! Embedding of `test_commands.py`. -/

/-- Command Argument Vector: an ordered list of string tokens. -/
abbrev CommandVector := List String

/-- Command Sequence: an ordered list of Command Argument Vectors. -/
abbrev CommandSequence := List CommandVector

/-- Element of an iterable command input: either a string or a nested
iterable whose members are converted to strings by the source. -/
inductive CommandElement where
  | str (s : String)
  | seq (parts : List String)
deriving DecidableEq

/-- Command input accepted by the manager: a shell style string or an
iterable of elements (`CommandInput = str | Iterable[str] |
Iterable[Iterable[str]]` in the source). -/
inductive CommandInput where
  | str (s : String)
  | list (elements : List CommandElement)
deriving DecidableEq

/-- State of a `TestCommandManager`: its alias table.  Python dict
assignment is modelled by prepending, with lookup taking the most recent
binding. -/
abbrev Registry := List (String × CommandSequence)

/-- Evaluate a fallible function over a list left to right, stopping at the
first error; the model of a Python list comprehension whose body may raise. -/
def mapExcept (f : α → Except ε β) : List α → Except ε (List β)
  | [] => .ok []
  | a :: rest =>
    match f a with
    | .error e => .error e
    | .ok b =>
      match mapExcept f rest with
      | .error e => .error e
      | .ok bs => .ok (b :: bs)

namespace TestCommandManager

/-- Message `_EMPTY_COMMAND_MESSAGE` of the source. -/
def emptyCommandMessage : String := "Command must contain at least one element"

/-- Message raised by `resolve_all` on an empty specification. -/
def emptySpecMessage : String := "Command specification cannot be empty"

/-- Message modelling the `IndexError` Python raises when indexing an empty
tuple (only reachable from malformed registry states). -/
def indexErrorMessage : String := "tuple index out of range"

/-- Whether a command element is a string (`isinstance(element, str)`). -/
def CommandElementIsStr : CommandElement → Bool
  | .str _ => true
  | .seq _ => false

/-- Conversion `str(element)` in the all-strings branch, where every element
is a string already. -/
def CommandElementGetStr : CommandElement → String
  | .str s => s
  | .seq _ => ""

/-- Embedding of `TestCommandManager._ensure_parts`. -/
def _ensure_parts (parts : List String) : Except String CommandVector :=
  if parts.isEmpty then .error emptyCommandMessage else .ok parts

/-- Embedding of `TestCommandManager._normalise_from_string`. -/
def _normalise_from_string (command : String) : Except String CommandSequence :=
  match shlexSplit command with
  | .error e => .error e
  | .ok parts =>
    match _ensure_parts parts with
    | .error e => .error e
    | .ok v => .ok [v]

/-- Embedding of `TestCommandManager._normalise_nested_element`.  The
`TypeError` branch of the source handles elements that are neither strings
nor iterables; such elements are not representable in `CommandElement`. -/
def _normalise_nested_element : CommandElement → Except String CommandVector
  | .str s =>
    match shlexSplit s with
    | .error e => .error e
    | .ok parts => _ensure_parts parts
  | .seq parts => _ensure_parts parts

/-- Embedding of `TestCommandManager._normalise_from_iterable`. -/
def _normalise_from_iterable (elements : List CommandElement) :
    Except String CommandSequence :=
  if elements.isEmpty then .error emptyCommandMessage
  else if elements.all CommandElementIsStr then
    match _ensure_parts (elements.map CommandElementGetStr) with
    | .error e => .error e
    | .ok v => .ok [v]
  else mapExcept _normalise_nested_element elements

/-- Embedding of `TestCommandManager.normalise`. -/
def normalise : CommandInput → Except String CommandSequence
  | .str s => _normalise_from_string s
  | .list elements => _normalise_from_iterable elements

/-- Embedding of `TestCommandManager.register`: normalise the input and bind
the alias, replacing any previous binding. -/
def register (st : Registry) (name : String) (command : CommandInput) :
    Except String Registry :=
  match normalise command with
  | .error e => .error e
  | .ok sequences => .ok ((name, sequences) :: st)

/-- Lookup of an alias in the registry, the model of membership and
indexing of the `_commands` dict. -/
def lookupAlias (st : Registry) (name : String) : Option CommandSequence :=
  match st with
  | [] => none
  | (k, v) :: rest => if k == name then some v else lookupAlias rest name

/-- Embedding of `TestCommandManager.resolve_all`. -/
def resolve_all (st : Registry) (spec : String) : Except String CommandSequence :=
  if spec = "" then .error emptySpecMessage
  else
    match lookupAlias st spec with
    | some sequences => .ok sequences
    | none =>
      match shlexSplit spec with
      | .error e => .error e
      | .ok parsed =>
        if parsed.isEmpty then .error emptySpecMessage else .ok [parsed]

/-- Embedding of `TestCommandManager.resolve`: first vector of the resolved
sequence (`commands[0]`). -/
def resolve (st : Registry) (spec : String) : Except String CommandVector :=
  match resolve_all st spec with
  | .error e => .error e
  | .ok [] => .error indexErrorMessage
  | .ok (c :: _) => .ok c

/-- Registry produced by the constructor with `include_defaults=True` and no
extra commands: the alias `pytest` bound to `("uv", "run", "pytest")`. -/
def defaultRegistry : Registry := [("pytest", [["uv", "run", "pytest"]])]

end TestCommandManager

/-! Executor side of `test_commands.py`. -/

/-- Embedding of `TestCommandExecutionError`: the attempted argument vector,
the optional captured stderr, and the formatted message built by the
constructor. -/
structure TestCommandExecutionError where
  command : CommandVector
  stderr : Option String
  message : String
deriving DecidableEq

/-- Embedding of `TestCommandExecutionError.__init__`: format the message
with the shell escaped command and the stripped stderr when present. -/
def TestCommandExecutionError.make (command : CommandVector) (message : String)
    (stderr : Option String) : TestCommandExecutionError :=
  let command_display := String.intercalate spaceStr (command.map shlexQuote)
  let formatted := message ++ newlineStr ++ "Command: " ++ command_display
  let formatted :=
    match stderr with
    | some s => if s = "" then formatted else formatted ++ newlineStr ++ "Stderr: " ++ pyStrip s
    | none => formatted
  { command := command, stderr := stderr, message := formatted }

/-- Embedding of `TestCommandResult`.  The wall clock duration, a Python
float in the source, is modelled as a rational number of seconds. -/
structure TestCommandResult where
  command : CommandVector
  returncode : Int
  stdout : String
  stderr : String
  duration : Rat
deriving DecidableEq

/-- Embedding of the `succeeded` property: the exit code is exactly zero. -/
def TestCommandResult.succeeded (r : TestCommandResult) : Bool :=
  r.returncode == 0

/-- Embedding of `TestCommandResult.command_display`. -/
def TestCommandResult.command_display (r : TestCommandResult) : String :=
  String.intercalate spaceStr (r.command.map shlexQuote)

/-- Round a rational to the nearest integer, ties to even, the rounding of
Python float formatting. -/
def roundHalfEven (q : Rat) : Int :=
  let f := ⌊q⌋
  let r := q - f
  if r < 1 / 2 then f
  else if 1 / 2 < r then f + 1
  else if f % 2 = 0 then f else f + 1

/-- Model of the Python format specifier `.2f` on the rational duration. -/
def formatFixed2 (q : Rat) : String :=
  let cents := roundHalfEven (q * 100)
  let sign := if cents < 0 then "-" else ""
  let a := cents.natAbs
  let whole := a / 100
  let frac := a % 100
  sign ++ toString whole ++ "." ++ (if frac < 10 then "0" ++ toString frac else toString frac)

/-- Embedding of `TestCommandResult.format`: command, exit code and duration
lines, followed by stdout and stderr blocks when non empty after
stripping. -/
def TestCommandResult.format (r : TestCommandResult) : String :=
  let lines := ["Command: " ++ r.command_display,
    "Exit code: " ++ toString r.returncode,
    "Duration: " ++ formatFixed2 r.duration ++ "s"]
  let lines := if pyStrip r.stdout = "" then lines else lines ++ ["Stdout:\n" ++ pyStrip r.stdout]
  let lines := if pyStrip r.stderr = "" then lines else lines ++ ["Stderr:\n" ++ pyStrip r.stderr]
  String.intercalate newlineStr lines

/-- Embedding of `TestCommandResult.to_prompt_block`: compact form without
the duration line. -/
def TestCommandResult.to_prompt_block (r : TestCommandResult) : String :=
  let summary := ["Command: " ++ r.command_display, "Exit code: " ++ toString r.returncode]
  let summary := if pyStrip r.stdout = "" then summary else summary ++ ["Stdout:\n" ++ pyStrip r.stdout]
  let summary := if pyStrip r.stderr = "" then summary else summary ++ ["Stderr:\n" ++ pyStrip r.stderr]
  String.intercalate newlineStr summary

/-- Outcome of the `subprocess.run` call inside `_execute`: the process ran
to completion with an exit code and captured output, or the call raised
`TimeoutExpired` (with optional captured stderr), or spawning raised
`OSError` with a message. -/
inductive SubprocessOutcome where
  | completed (returncode : Int) (stdout : String) (stderr : String)
  | timedOut (stderr : Option String)
  | osError (message : String)
deriving DecidableEq

/-- Whether the outcome is a spawn or timeout failure rather than a
completed process. -/
def SubprocessOutcome.isSpawnFailure : SubprocessOutcome → Bool
  | .completed _ _ _ => false
  | .timedOut _ => true
  | .osError _ => true

/-- Message used by `_execute` when the command times out. -/
def timedOutMessage : String := "Test command timed out"

/-- Error propagated out of executor entry points: a `ValueError` message
from resolution, or a `TestCommandExecutionError` from execution. -/
inductive WorkflowError where
  | valueError (message : String)
  | executionError (e : TestCommandExecutionError)
deriving DecidableEq

namespace TestCommandExecutor

/-- Embedding of `TestCommandExecutor._execute` for a given subprocess
outcome and measured duration: completed processes become results whatever
the exit code; timeout and spawn failures raise
`TestCommandExecutionError`. -/
def _execute (command : CommandVector) (outcome : SubprocessOutcome)
    (duration : Rat) : Except TestCommandExecutionError TestCommandResult :=
  match outcome with
  | .completed returncode stdout stderr =>
    .ok ⟨command, returncode, stdout, stderr, duration⟩
  | .timedOut stderr => .error (TestCommandExecutionError.make command timedOutMessage stderr)
  | .osError message => .error (TestCommandExecutionError.make command message none)

/-- Sequential execution of a list of command vectors, the model of the list
comprehension in `run_all`; the outcome and duration of the call at each
position are supplied by oracles indexed by position. -/
def runCommands (oracle : Nat → SubprocessOutcome) (durations : Nat → Rat) :
    Nat → List CommandVector → Except WorkflowError (List TestCommandResult)
  | _, [] => .ok []
  | i, c :: rest =>
    match _execute c (oracle i) (durations i) with
    | .error e => .error (WorkflowError.executionError e)
    | .ok r =>
      match runCommands oracle durations (i + 1) rest with
      | .error e => .error e
      | .ok rs => .ok (r :: rs)

/-- Embedding of `TestCommandExecutor.run`: resolve the specification to a
single vector and execute it. -/
def run (manager : Registry) (spec : String) (outcome : SubprocessOutcome)
    (duration : Rat) : Except WorkflowError TestCommandResult :=
  match TestCommandManager.resolve manager spec with
  | .error m => .error (WorkflowError.valueError m)
  | .ok command =>
    match _execute command outcome duration with
    | .error e => .error (WorkflowError.executionError e)
    | .ok r => .ok r

/-- Embedding of `TestCommandExecutor.run_all`: resolve the full sequence
and execute every vector in order. -/
def run_all (manager : Registry) (spec : String) (oracle : Nat → SubprocessOutcome)
    (durations : Nat → Rat) : Except WorkflowError (List TestCommandResult) :=
  match TestCommandManager.resolve_all manager spec with
  | .error m => .error (WorkflowError.valueError m)
  | .ok commands => runCommands oracle durations 0 commands

end TestCommandExecutor

/-! Embedding of `tdd.py` (`_TDDStepFactory`). -/

namespace _TDDStepFactory

/-- Status line for a test run matching its expectation. -/
def behavedLine : String := "✅ Tests behaved as expected."

/-- Status line for a test run that did not match its expectation. -/
def mismatchLine : String := "⚠️ Test outcome did not match the expectation."

/-- Embedding of `_TDDStepFactory._append_context`.  The content argument is
`object | None` in the source; the workflows pass step outputs, which are
strings, so it is modelled as an optional string (with `str(content)` the
identity).  A falsy content (absent or empty) leaves the prompt unchanged. -/
def _append_context (prompt heading : String) (content : Option String) : String :=
  match content with
  | none => prompt
  | some s =>
    if s = "" then prompt
    else
      let content_str := pyStrip s
      if content_str = "" then prompt
      else prompt ++ doubleNewline ++ heading ++ newlineStr ++ content_str

/-- Embedding of `_TDDStepFactory._format_test_summary`. -/
def _format_test_summary (result : TestCommandResult) (expect_success : Bool) : String :=
  let expectation_met := (result.succeeded && expect_success) ||
    (!result.succeeded && !expect_success)
  let status_line := if expectation_met then behavedLine else mismatchLine
  result.format ++ doubleNewline ++ status_line

end _TDDStepFactory

/-! Embedding of `linter.py` (`_LinterStepFactory`). -/

namespace _LinterStepFactory

/-- Shell metacharacters checked by `_shell_escape_many`: single quote,
double quote, dollar and backquote. -/
def shellMetaChars : List Char := [sqChar, dqChar, dollarChar, backquoteChar]

/-- Replacement `_shell_escape_many` applies to an embedded single quote:
close the quote, emit a backslash escaped quote, reopen the quote. -/
def posixQuoteEscape : List Char := [sqChar, bsChar, sqChar, sqChar]

/-- Embedding of `_LinterStepFactory._shell_escape_many`: an empty value
becomes a pair of quotes; a value containing white space or a shell
metacharacter is wrapped in single quotes with embedded single quotes
replaced by `posixQuoteEscape`; any other value is kept unchanged. -/
def _shell_escape_many : List String → List String
  | [] => []
  | value :: rest =>
    (if value = "" then sqStr ++ sqStr
     else if value.toList.any pyIsSpace || value.toList.any (fun ch => shellMetaChars.contains ch) then
       sqStr ++ String.mk (replaceChar sqChar posixQuoteEscape value.toList) ++ sqStr
     else value) :: _shell_escape_many rest

/-- Embedding of the command specification construction in
`_LinterStepFactory.run_linter`: join the escaped targets with spaces and
append them to the linter command when non empty. -/
def run_linter_command_spec (linter_command : String) (targets : List String) : String :=
  let target_spec := String.intercalate spaceStr (_shell_escape_many targets)
  if target_spec = "" then linter_command
  else linter_command ++ spaceStr ++ target_spec

end _LinterStepFactory

/-! Specification side definitions, written from the words of the claims
rather than from the source, for comparison with the embedded code. -/

/-- Token escape rule exactly as claim C1 states it: a token containing
white space or a shell metacharacter is wrapped in single quotes with its
internal single quotes doubled; any other token is left unchanged. -/
def escapeTokenClaimed (value : String) : String :=
  if value.toList.any pyIsSpace || value.toList.any (fun ch => _LinterStepFactory.shellMetaChars.contains ch) then
    sqStr ++ String.mk (replaceChar sqChar [sqChar, sqChar] value.toList) ++ sqStr
  else value

/-- Token escape rule of the amended claim C1: a non empty token containing
white space or a shell metacharacter is wrapped in single quotes with each
internal single quote replaced by the sequence quote backslash quote quote;
an empty token becomes a pair of quotes; any other token is left
unchanged. -/
def escapeTokenAmended (value : String) : String :=
  if value = "" then sqStr ++ sqStr
  else if value.toList.any pyIsSpace || value.toList.any (fun ch => _LinterStepFactory.shellMetaChars.contains ch) then
    sqStr ++ String.mk (replaceChar sqChar _LinterStepFactory.posixQuoteEscape value.toList) ++ sqStr
  else value

/-- Well formed Command Sequence: non empty, with every vector non empty. -/
abbrev SequenceOk (seqs : CommandSequence) : Prop :=
  seqs ≠ [] ∧ ∀ v ∈ seqs, v ≠ []

/-- Well formed registry: every registered sequence is well formed. -/
abbrev RegistryOk (st : Registry) : Prop :=
  ∀ e ∈ st, SequenceOk e.2

/-- Expectation condition of claim C7: the result succeeded and success was
expected, or the result failed and failure was expected. -/
abbrev ExpectationMet (r : TestCommandResult) (expect_success : Bool) : Prop :=
  (r.returncode = 0 ∧ expect_success = true) ∨ (r.returncode ≠ 0 ∧ expect_success = false)

/-! Concrete fixtures used by witnesses and counterexamples. -/

/-- Token holding an internal single quote. -/
def tokenWithQuote : String := "a" ++ sqStr ++ "b"

/-- Escaped form the source produces for `tokenWithQuote`. -/
def tokenWithQuoteEscaped : String :=
  String.mk [sqChar, 'a', sqChar, bsChar, sqChar, sqChar, 'b', sqChar]

/-- Simple path target of the linter example. -/
def srcAppTarget : String := "src/app.py"

/-- Space containing target of the linter example. -/
def spacedTarget : String := "a b.py"

/-- Linter command of the example. -/
def ruffCheck : String := "ruff check"

/-- Expected command specification of the linter example. -/
def ruffExpected : String := "ruff check src/app.py " ++ sqStr ++ "a b.py" ++ sqStr

/-- Registry binding one alias to a two vector sequence. -/
def twoStepRegistry : Registry := [("both", [["a"], ["b"]])]

/-- Oracle whose first command exits with code 1 and later commands with
code 0. -/
def failThenPassOracle : Nat → SubprocessOutcome := fun i =>
  SubprocessOutcome.completed (if i == 0 then 1 else 0) "" ""

/-- Duration oracle returning zero seconds. -/
def zeroDurations : Nat → Rat := fun _ => 0

/-- Concrete result fixture: exit code zero. -/
def passingResult : TestCommandResult := ⟨["x"], 0, "", "", 0⟩

/-! Helper lemmas about the embedded operations. -/

/-- Lemma: a successful `_ensure_parts` returns its input, which is non
empty. -/
theorem ensure_parts_ok {parts v : List String}
    (h : TestCommandManager._ensure_parts parts = .ok v) : v = parts ∧ parts ≠ [] := by
  unfold TestCommandManager._ensure_parts at h
  split at h
  · exact absurd h (by simp)
  · next hne =>
    injection h with h
    subst h
    refine ⟨rfl, ?_⟩
    simpa using hne

/-- Lemma: a successful `mapExcept` relates inputs and outputs pointwise. -/
theorem mapExcept_ok_forall2 {α β ε : Type} {f : α → Except ε β} :
    ∀ {l : List α} {r : List β}, mapExcept f l = .ok r →
      List.Forall₂ (fun a b => f a = .ok b) l r := by
  intro l
  induction l with
  | nil =>
    intro r h
    unfold mapExcept at h
    injection h with h
    subst h
    exact .nil
  | cons a rest ih =>
    intro r h
    unfold mapExcept at h
    cases hfa : f a with
    | error e => rw [hfa] at h; exact absurd h (by simp)
    | ok b =>
      rw [hfa] at h
      cases hrest : mapExcept f rest with
      | error e => rw [hrest] at h; exact absurd h (by simp)
      | ok bs =>
        rw [hrest] at h
        injection h with h
        subst h
        exact .cons hfa (ih hrest)

/-- Lemma: a pointwise relation gives, for every member of the right list, a
related member of the left list. -/
theorem forall2_right_mem {α β : Type} {R : α → β → Prop} :
    ∀ {l : List α} {r : List β}, List.Forall₂ R l r → ∀ b ∈ r, ∃ a, R a b := by
  intro l r h
  induction h with
  | nil => intro b hb; cases hb
  | cons hR _ ih =>
    intro b hb
    cases hb with
    | head => exact ⟨_, hR⟩
    | tail _ hb => exact ih b hb

/-- Lemma: the shlex lexer consumes white space between tokens without
emitting anything. -/
theorem shlexSplitAux_whitespace (acc : List String) :
    ∀ chars : List Char, (∀ c ∈ chars, isShlexWhitespace c = true) →
      shlexSplitAux .betweenTokens [] false acc chars = .ok acc := by
  intro chars
  induction chars with
  | nil => intro _; rfl
  | cons c rest ih =>
    intro h
    have hc : isShlexWhitespace c = true := h c (List.mem_cons_self c rest)
    have hrest : ∀ x ∈ rest, isShlexWhitespace x = true :=
      fun x hx => h x (List.mem_cons_of_mem c hx)
    rw [show shlexSplitAux .betweenTokens [] false acc (c :: rest) =
        shlexSplitAux .betweenTokens [] false acc rest by
      simp [shlexSplitAux, hc]]
    exact ih hrest

/-- Lemma: a successful `_normalise_nested_element` returns a non empty
vector. -/
theorem nested_ok_ne_nil {el : CommandElement} {v : CommandVector}
    (h : TestCommandManager._normalise_nested_element el = .ok v) : v ≠ [] := by
  cases el with
  | str s =>
    simp only [TestCommandManager._normalise_nested_element] at h
    cases hs : shlexSplit s with
    | error e => simp only [hs] at h; exact absurd h (by simp)
    | ok parts =>
      simp only [hs] at h
      obtain ⟨rfl, hne⟩ := ensure_parts_ok h
      exact hne
  | seq parts =>
    simp only [TestCommandManager._normalise_nested_element] at h
    obtain ⟨rfl, hne⟩ := ensure_parts_ok h
    exact hne

/-- Lemma: a successful `normalise` produces a well formed Command
Sequence. -/
theorem normalise_ok_wf {cmd : CommandInput} {seqs : CommandSequence}
    (h : TestCommandManager.normalise cmd = .ok seqs) : SequenceOk seqs := by
  cases cmd with
  | str s =>
    simp only [TestCommandManager.normalise, TestCommandManager._normalise_from_string] at h
    cases hs : shlexSplit s with
    | error e => simp only [hs] at h; exact absurd h (by simp)
    | ok parts =>
      simp only [hs] at h
      cases hep : TestCommandManager._ensure_parts parts with
      | error e => simp only [hep] at h; exact absurd h (by simp)
      | ok v =>
        simp only [hep] at h
        injection h with h
        subst h
        obtain ⟨rfl, hne⟩ := ensure_parts_ok hep
        exact ⟨by simp, by simpa using hne⟩
  | list elements =>
    simp only [TestCommandManager.normalise, TestCommandManager._normalise_from_iterable] at h
    split at h
    · exact absurd h (by simp)
    · next hne =>
      split at h
      · cases hep : TestCommandManager._ensure_parts
            (elements.map TestCommandManager.CommandElementGetStr) with
        | error e => simp only [hep] at h; exact absurd h (by simp)
        | ok v =>
          simp only [hep] at h
          injection h with h
          subst h
          obtain ⟨rfl, hvne⟩ := ensure_parts_ok hep
          exact ⟨by simp, by simpa using hvne⟩
      · have h2 := mapExcept_ok_forall2 h
        constructor
        · intro hnil
          subst hnil
          have hlen := List.Forall₂.length_eq h2
          simp at hlen
          subst hlen
          simp at hne
        · intro v hv
          obtain ⟨el, hel⟩ := forall2_right_mem h2 v hv
          exact nested_ok_ne_nil hel

/-- Lemma: lookup in a well formed registry yields a well formed
sequence. -/
theorem lookupAlias_ok {st : Registry} {name : String} {seqs : CommandSequence}
    (hwf : RegistryOk st) (h : TestCommandManager.lookupAlias st name = some seqs) :
    SequenceOk seqs := by
  induction st with
  | nil => exact absurd h (by simp [TestCommandManager.lookupAlias])
  | cons e rest ih =>
    obtain ⟨k, v⟩ := e
    simp only [TestCommandManager.lookupAlias] at h
    split at h
    · injection h with h
      subst h
      exact hwf _ (List.mem_cons_self _ _)
    · exact ih (fun x hx => hwf x (List.mem_cons_of_mem _ hx)) h

/-- Lemma: `normalise` of a non empty flat list of strings is the single
vector holding exactly those strings. -/
theorem normalise_list_str {l : List String} (hl : l ≠ []) :
    TestCommandManager.normalise (CommandInput.list (l.map CommandElement.str)) = .ok [l] := by
  simp only [TestCommandManager.normalise, TestCommandManager._normalise_from_iterable]
  have h1 : (l.map CommandElement.str).isEmpty = false := by
    cases l with
    | nil => exact absurd rfl hl
    | cons a as => rfl
  have h2 : (l.map CommandElement.str).all TestCommandManager.CommandElementIsStr = true := by
    simp only [List.all_eq_true]
    intro x hx
    obtain ⟨s, _, rfl⟩ := List.mem_map.mp hx
    rfl
  have h3 : (l.map CommandElement.str).map TestCommandManager.CommandElementGetStr = l := by
    rw [List.map_map]
    have : TestCommandManager.CommandElementGetStr ∘ CommandElement.str = id := by
      funext s
      rfl
    rw [this, List.map_id]
  rw [h1, h2, h3]
  simp only [TestCommandManager._ensure_parts]
  have h4 : l.isEmpty = false := by
    cases l with
    | nil => exact absurd rfl hl
    | cons a as => rfl
  rw [h4]
  rfl

/-! Claim theorems. -/

/-- Claim C1, counterexample: on the token `a'b` the source wraps in single
quotes but replaces the internal quote by quote backslash quote quote, not
by a doubled quote; and on the empty token (which contains no white space
and no metacharacter) the source emits a pair of quotes instead of leaving
it unchanged.  `escapeTokenClaimed` is the escape rule exactly as the claim
states it. -/
theorem claim_C1_counterexample :
    _LinterStepFactory._shell_escape_many [tokenWithQuote, ""] =
        [tokenWithQuoteEscaped, sqStr ++ sqStr] ∧
      [tokenWithQuoteEscaped, sqStr ++ sqStr] ≠
        [escapeTokenClaimed tokenWithQuote, escapeTokenClaimed ("")] := by
  exact ⟨by decide, by decide⟩

/-- Claim C1 (amended): the shell escape of the linter workflow maps each
target token independently; a non empty token containing white space or one
of the shell metacharacters is wrapped in single quotes with each internal
single quote replaced by the sequence quote backslash quote quote, an empty
token becomes a pair of single quotes, and any other token is left
unchanged; in particular for linter command `ruff check` and targets
`src/app.py` and `a b.py` the constructed command specification quotes the
space containing target and leaves the simple target unquoted. -/
theorem claim_C1 :
    (∀ values : List String,
        _LinterStepFactory._shell_escape_many values = values.map escapeTokenAmended) ∧
      _LinterStepFactory.run_linter_command_spec ruffCheck [srcAppTarget, spacedTarget] =
        ruffExpected := by
  constructor
  · intro values
    induction values with
    | nil => rfl
    | cons v rest ih =>
      simp only [_LinterStepFactory._shell_escape_many, List.map_cons, ih]
      rfl
  · decide

/-- Claim C5: resolving the empty specification always fails with the empty
specification error, whatever the registry contains. -/
theorem claim_C5 (st : Registry) :
    TestCommandManager.resolve_all st ("") = .error TestCommandManager.emptySpecMessage ∧
      TestCommandManager.resolve st ("") = .error TestCommandManager.emptySpecMessage :=
  ⟨rfl, rfl⟩

/-- Claim C3, counterexample: with the empty string as alias name,
registration of the list `["a"]` succeeds, but the subsequent `resolve`
fails with the empty specification error instead of returning `["a"]`. -/
theorem claim_C3_counterexample :
    TestCommandManager.register [] ("") (CommandInput.list [CommandElement.str ("a")]) =
        .ok [(("" : String), [[("a" : String)]])] ∧
      TestCommandManager.resolve [(("" : String), [[("a" : String)]])] ("") =
        .error TestCommandManager.emptySpecMessage ∧
      (Except.error TestCommandManager.emptySpecMessage ≠
        (Except.ok [("a" : String)] : Except String CommandVector)) := by
  refine ⟨rfl, rfl, ?_⟩
  intro h
  exact Except.noConfusion h

/-- Claim C3 (amended): for every non empty alias name and every non empty
list of strings, `register` of the list followed by `resolve` of the name
returns the input list unchanged, in order, with no further tokenization of
the individual strings. -/
theorem claim_C3 (st : Registry) (name : String) (l : List String)
    (hname : name ≠ "") (hl : l ≠ []) :
    ∃ st2,
      TestCommandManager.register st name (CommandInput.list (l.map CommandElement.str)) =
          .ok st2 ∧
        TestCommandManager.resolve st2 name = .ok l := by
  refine ⟨(name, [l]) :: st, ?_, ?_⟩
  · simp only [TestCommandManager.register, normalise_list_str hl]
  · simp only [TestCommandManager.resolve, TestCommandManager.resolve_all, hname,
      TestCommandManager.lookupAlias, beq_self_eq_true, if_true, if_false, ite_false]

/-- Witness for claim C3 at a concrete registry, alias and list. -/
theorem claim_C3_witness :
    ∃ st2,
      TestCommandManager.register [] ("tests")
          (CommandInput.list ([("a"), ("b c")].map CommandElement.str)) = .ok st2 ∧
        TestCommandManager.resolve st2 ("tests") = .ok [("a"), ("b c")] :=
  claim_C3 [] ("tests") [("a"), ("b c")] (by decide) (by decide)

/-- Claim C10, counterexample: with the empty string as alias name,
re-registration succeeds silently, but `resolve_all` of the name fails with
the empty specification error instead of returning the normalisation of the
most recent command input. -/
theorem claim_C10_counterexample :
    TestCommandManager.register [] ("") (CommandInput.list [CommandElement.str ("a")]) =
        .ok [(("" : String), [[("a" : String)]])] ∧
      TestCommandManager.register [(("" : String), [[("a" : String)]])] ("")
          (CommandInput.list [CommandElement.str ("b")]) =
        .ok [(("" : String), [[("b" : String)]]), (("" : String), [[("a" : String)]])] ∧
      TestCommandManager.resolve_all
          [(("" : String), [[("b" : String)]]), (("" : String), [[("a" : String)]])] ("") =
        .error TestCommandManager.emptySpecMessage ∧
      (Except.error TestCommandManager.emptySpecMessage ≠
        (Except.ok [[("b" : String)]] : Except String CommandSequence)) := by
  refine ⟨rfl, rfl, rfl, ?_⟩
  intro h
  exact Except.noConfusion h

/-- Claim C10 (amended): for every registry and every non empty alias name,
registering the name again silently replaces the previous Command Sequence:
re-registration raises no error and a subsequent `resolve_all` of the name
returns the normalisation of the most recent command input. -/
theorem claim_C10 (st : Registry) (name : String) (cmd1 cmd2 : CommandInput)
    (seq1 seq2 : CommandSequence) (hname : name ≠ "")
    (h1 : TestCommandManager.normalise cmd1 = .ok seq1)
    (h2 : TestCommandManager.normalise cmd2 = .ok seq2) :
    ∃ st1 st2,
      TestCommandManager.register st name cmd1 = .ok st1 ∧
        TestCommandManager.register st1 name cmd2 = .ok st2 ∧
        TestCommandManager.resolve_all st2 name = .ok seq2 := by
  refine ⟨(name, seq1) :: st, (name, seq2) :: (name, seq1) :: st, ?_, ?_, ?_⟩
  · simp only [TestCommandManager.register, h1]
  · simp only [TestCommandManager.register, h2]
  · simp only [TestCommandManager.resolve_all, hname, TestCommandManager.lookupAlias,
      beq_self_eq_true, if_true, if_false, ite_false]

/-- Witness for claim C10 at a concrete registry, alias and commands. -/
theorem claim_C10_witness :
    ∃ st1 st2,
      TestCommandManager.register [] ("lint")
          (CommandInput.list [CommandElement.str ("a")]) = .ok st1 ∧
        TestCommandManager.register st1 ("lint")
            (CommandInput.list [CommandElement.str ("b")]) = .ok st2 ∧
        TestCommandManager.resolve_all st2 ("lint") = .ok [[("b" : String)]] :=
  claim_C10 [] ("lint") (CommandInput.list [CommandElement.str ("a")])
    (CommandInput.list [CommandElement.str ("b")]) [[("a")]] [[("b")]]
    (by decide) rfl rfl

/-- Claim C4: registering a mixed list normalises each element to one
vector: the concrete mixed input gives exactly the two vector sequence of
the claim; in general, when the elements are not all strings, a successful
normalisation relates elements and vectors pointwise in order, a nested
string sequence element becomes exactly that sequence, and a string element
is tokenized by the shell splitter. -/
theorem claim_C4 :
    TestCommandManager.normalise
        (CommandInput.list [CommandElement.seq [("a"), ("b")], CommandElement.str ("c d")]) =
      .ok [[("a" : String), ("b")], [("c"), ("d")]] ∧
    (∀ (elements : List CommandElement) (seqs : CommandSequence),
        elements.all TestCommandManager.CommandElementIsStr = false →
          TestCommandManager._normalise_from_iterable elements = .ok seqs →
          List.Forall₂
            (fun el v => TestCommandManager._normalise_nested_element el = .ok v)
            elements seqs) ∧
    (∀ (parts : List String) (v : CommandVector),
        TestCommandManager._normalise_nested_element (CommandElement.seq parts) = .ok v →
          v = parts) ∧
    (∀ (s : String) (v : CommandVector),
        TestCommandManager._normalise_nested_element (CommandElement.str s) = .ok v →
          shlexSplit s = .ok v) := by
  refine ⟨by rfl, ?_, ?_, ?_⟩
  · intro elements seqs hmixed h
    simp only [TestCommandManager._normalise_from_iterable, hmixed] at h
    split at h
    · exact absurd h (by simp)
    · exact mapExcept_ok_forall2 h
  · intro parts v h
    simp only [TestCommandManager._normalise_nested_element] at h
    exact (ensure_parts_ok h).1
  · intro s v h
    simp only [TestCommandManager._normalise_nested_element] at h
    cases hs : shlexSplit s with
    | error e => simp only [hs] at h; exact h
    | ok parts =>
      simp only [hs] at h
      obtain ⟨rfl, _⟩ := ensure_parts_ok h
      rfl

/-- Witness for claim C4: the pointwise normalisation at the concrete mixed
input of the claim. -/
theorem claim_C4_witness :
    List.Forall₂ (fun el v => TestCommandManager._normalise_nested_element el = .ok v)
      [CommandElement.seq [("a"), ("b")], CommandElement.str ("c d")]
      [[("a" : String), ("b")], [("c"), ("d")]] :=
  claim_C4.2.1 [CommandElement.seq [("a"), ("b")], CommandElement.str ("c d")]
    [[("a" : String), ("b")], [("c"), ("d")]] (by decide) (by rfl)

/-- Claim C7: the summary of a TDD test run step carries the behaved as
expected annotation exactly when the result succeeded and success was
expected or the result failed and failure was expected, and otherwise
carries the did not match annotation; the annotation is a total function of
the result and never raises. -/
theorem claim_C7 (r : TestCommandResult) (expect_success : Bool) :
    (ExpectationMet r expect_success →
        _TDDStepFactory._format_test_summary r expect_success =
          TestCommandResult.format r ++ doubleNewline ++ _TDDStepFactory.behavedLine) ∧
      (¬ ExpectationMet r expect_success →
        _TDDStepFactory._format_test_summary r expect_success =
          TestCommandResult.format r ++ doubleNewline ++ _TDDStepFactory.mismatchLine) := by
  constructor <;> intro h <;>
    by_cases hrc : r.returncode = 0 <;> cases expect_success <;>
      simp_all [_TDDStepFactory._format_test_summary, TestCommandResult.succeeded,
        ExpectationMet]

/-- Witness for claim C7 at a passing result with success expected. -/
theorem claim_C7_witness :
    _TDDStepFactory._format_test_summary passingResult true =
      TestCommandResult.format passingResult ++ doubleNewline ++
        _TDDStepFactory.behavedLine :=
  (claim_C7 passingResult true).1 (by decide)

/-- Claim C8: appending a context section to a prompt is the identity when
the content is absent, empty, or white space only; otherwise the result is
the prompt, a blank line, the heading, a newline, and the trimmed
content. -/
theorem claim_C8 (prompt heading : String) (content : Option String) :
    (content = none → _TDDStepFactory._append_context prompt heading content = prompt) ∧
      (∀ s, content = some s → pyStrip s = "" →
        _TDDStepFactory._append_context prompt heading content = prompt) ∧
      (∀ s, content = some s → pyStrip s ≠ "" →
        _TDDStepFactory._append_context prompt heading content =
          prompt ++ doubleNewline ++ heading ++ newlineStr ++ pyStrip s) := by
  refine ⟨?_, ?_, ?_⟩
  · intro h
    subst h
    rfl
  · intro s h hstrip
    subst h
    simp only [_TDDStepFactory._append_context]
    by_cases hs : s = ""
    · simp [hs]
    · rw [if_neg hs, hstrip]
      simp
  · intro s h hstrip
    subst h
    have hs : s ≠ "" := by
      intro he
      subst he
      exact hstrip rfl
    simp only [_TDDStepFactory._append_context]
    rw [if_neg hs, if_neg hstrip]

/-- Witness for claim C8 at a concrete prompt, heading and content. -/
theorem claim_C8_witness :
    _TDDStepFactory._append_context ("base prompt") ("Context from exploration:")
        (some (" findings ")) =
      ("base prompt") ++ doubleNewline ++ ("Context from exploration:") ++ newlineStr ++
        pyStrip (" findings ") :=
  (claim_C8 ("base prompt") ("Context from exploration:") (some (" findings "))).2.2
    (" findings ") rfl (by decide)

/-- Claim C2: for every resolved command vector, `_execute` raises a
`TestCommandExecutionError` carrying the attempted argument vector (and the
captured stderr when available) exactly when the process cannot be spawned
or the timeout elapses; a process completing with any exit code yields a
result rather than an error, and the result succeeded exactly when the exit
code is zero; finally, `run` propagates the `_execute` behaviour on the
vector its specification resolves to. -/
theorem claim_C2 (command : CommandVector) (outcome : SubprocessOutcome) (duration : Rat) :
    ((∃ e, TestCommandExecutor._execute command outcome duration = .error e ∧
          e.command = command) ↔ outcome.isSpawnFailure = true) ∧
      (∀ rc stdout stderr, outcome = SubprocessOutcome.completed rc stdout stderr →
        TestCommandExecutor._execute command outcome duration =
            .ok ⟨command, rc, stdout, stderr, duration⟩ ∧
          (TestCommandResult.succeeded ⟨command, rc, stdout, stderr, duration⟩ = true ↔
            rc = 0)) ∧
      (∀ st, outcome = SubprocessOutcome.timedOut st →
        ∃ e, TestCommandExecutor._execute command outcome duration = .error e ∧
          e.command = command ∧ e.stderr = st) ∧
      (∀ msg, outcome = SubprocessOutcome.osError msg →
        ∃ e, TestCommandExecutor._execute command outcome duration = .error e ∧
          e.command = command ∧ e.stderr = none) ∧
      (∀ (manager : Registry) (spec : String),
        TestCommandManager.resolve manager spec = .ok command →
          TestCommandExecutor.run manager spec outcome duration =
            match TestCommandExecutor._execute command outcome duration with
            | .error e => .error (WorkflowError.executionError e)
            | .ok r => .ok r) := by
  refine ⟨?_, ?_, ?_, ?_, ?_⟩
  · cases outcome with
    | completed rc stdout stderr =>
      simp [TestCommandExecutor._execute, SubprocessOutcome.isSpawnFailure]
    | timedOut st =>
      simp only [SubprocessOutcome.isSpawnFailure]
      exact ⟨fun _ => trivial, fun _ => ⟨_, rfl, rfl⟩⟩
    | osError msg =>
      simp only [SubprocessOutcome.isSpawnFailure]
      exact ⟨fun _ => trivial, fun _ => ⟨_, rfl, rfl⟩⟩
  · intro rc stdout stderr h
    subst h
    exact ⟨rfl, by simp [TestCommandResult.succeeded]⟩
  · intro st h
    subst h
    exact ⟨_, rfl, rfl, rfl⟩
  · intro msg h
    subst h
    exact ⟨_, rfl, rfl, rfl⟩
  · intro manager spec h
    simp only [TestCommandExecutor.run, h]

/-- Witness for claim C2 at a concrete vector and a completed process with
a non zero exit code. -/
theorem claim_C2_witness :
    TestCommandExecutor._execute [("pytest")] (SubprocessOutcome.completed 1 ("") ("out")) 0 =
        .ok ⟨[("pytest")], 1, (""), ("out"), 0⟩ ∧
      (TestCommandResult.succeeded ⟨[("pytest")], 1, (""), ("out"), 0⟩ = true ↔ (1 : Int) = 0) :=
  (claim_C2 [("pytest")] (SubprocessOutcome.completed 1 ("") ("out")) 0).2.1 1 ("") ("out") rfl

/-- Lemma: when every oracle outcome is a completed process, the sequential
execution loop returns one result per vector, in order, whose commands are
exactly the input vectors. -/
theorem runCommands_ok (oracle : Nat → SubprocessOutcome) (durations : Nat → Rat)
    (hok : ∀ j, (oracle j).isSpawnFailure = false) :
    ∀ (cs : List CommandVector) (i : Nat),
      ∃ rs, TestCommandExecutor.runCommands oracle durations i cs = .ok rs ∧
        rs.map TestCommandResult.command = cs := by
  intro cs
  induction cs with
  | nil => exact fun i => ⟨[], rfl, rfl⟩
  | cons c rest ih =>
    intro i
    obtain ⟨rs, hrs, hmap⟩ := ih (i + 1)
    cases ho : oracle i with
    | completed rc stdout stderr =>
      refine ⟨⟨c, rc, stdout, stderr, durations i⟩ :: rs, ?_, ?_⟩
      · simp only [TestCommandExecutor.runCommands, ho, TestCommandExecutor._execute, hrs]
      · simp [hmap, TestCommandResult.command]
    | timedOut st =>
      have := hok i
      rw [ho] at this
      exact absurd this (by simp [SubprocessOutcome.isSpawnFailure])
    | osError msg =>
      have := hok i
      rw [ho] at this
      exact absurd this (by simp [SubprocessOutcome.isSpawnFailure])

/-- Claim C6: when a specification resolves to a sequence of vectors and
every process completes (with any exit codes), `run_all` executes all of
them and returns one result per vector in the same order, with no short
circuiting on non zero exit codes. -/
theorem claim_C6 (manager : Registry) (spec : String) (oracle : Nat → SubprocessOutcome)
    (durations : Nat → Rat) (cs : CommandSequence)
    (hres : TestCommandManager.resolve_all manager spec = .ok cs)
    (hok : ∀ j, (oracle j).isSpawnFailure = false) :
    ∃ rs, TestCommandExecutor.run_all manager spec oracle durations = .ok rs ∧
      rs.map TestCommandResult.command = cs := by
  obtain ⟨rs, hrs, hmap⟩ := runCommands_ok oracle durations hok cs 0
  exact ⟨rs, by simp only [TestCommandExecutor.run_all, hres, hrs], hmap⟩

/-- Witness for claim C6: a two vector alias where the first vector fails
with exit code one and the second still runs. -/
theorem claim_C6_witness :
    ∃ rs, TestCommandExecutor.run_all twoStepRegistry ("both") failThenPassOracle
        zeroDurations = .ok rs ∧
      rs.map TestCommandResult.command = [[("a" : String)], [("b")]] :=
  claim_C6 twoStepRegistry ("both") failThenPassOracle zeroDurations
    [[("a" : String)], [("b")]] (by rfl) (fun j => rfl)

/-- Lemma: every vector of a successfully resolved sequence over a well
formed registry is non empty. -/
theorem resolve_all_ok_vectors {st : Registry} {spec : String} {seqs : CommandSequence}
    (hwf : RegistryOk st) (h : TestCommandManager.resolve_all st spec = .ok seqs) :
    ∀ v ∈ seqs, v ≠ [] := by
  unfold TestCommandManager.resolve_all at h
  split at h
  · exact absurd h (by simp)
  · cases hl : TestCommandManager.lookupAlias st spec with
    | some s =>
      rw [hl] at h
      injection h with h
      subst h
      exact (lookupAlias_ok hwf hl).2
    | none =>
      rw [hl] at h
      cases hsp : shlexSplit spec with
      | error e => simp only [hsp] at h; exact absurd h (by simp)
      | ok parsed =>
        simp only [hsp] at h
        split at h
        · exact absurd h (by simp)
        · next hpe =>
          injection h with h
          subst h
          intro v hv
          rw [List.mem_singleton] at hv
          subst hv
          simpa using hpe

/-- Claim C9: a non empty specification consisting only of shlex white
space that is not a registered alias fails with the empty specification
error; moreover the constructor default registry is well formed,
registration preserves well formedness, and over a well formed registry
every vector returned by `resolve_all` or `resolve` has length at least
one. -/
theorem claim_C9 :
    (∀ (st : Registry) (spec : String), spec ≠ "" →
        (∀ c ∈ spec.toList, isShlexWhitespace c = true) →
        TestCommandManager.lookupAlias st spec = none →
        TestCommandManager.resolve_all st spec =
          .error TestCommandManager.emptySpecMessage) ∧
      RegistryOk TestCommandManager.defaultRegistry ∧
      (∀ (st : Registry) (name : String) (cmd : CommandInput) (st2 : Registry),
        RegistryOk st → TestCommandManager.register st name cmd = .ok st2 →
          RegistryOk st2) ∧
      (∀ (st : Registry) (spec : String) (seqs : CommandSequence),
        RegistryOk st → TestCommandManager.resolve_all st spec = .ok seqs →
          ∀ v ∈ seqs, 1 ≤ v.length) ∧
      (∀ (st : Registry) (spec : String) (v : CommandVector),
        RegistryOk st → TestCommandManager.resolve st spec = .ok v → 1 ≤ v.length) := by
  refine ⟨?_, by decide, ?_, ?_, ?_⟩
  · intro st spec hne hws hlook
    have hsplit : shlexSplit spec = .ok [] := shlexSplitAux_whitespace [] spec.toList hws
    simp only [TestCommandManager.resolve_all, if_neg hne, hlook, hsplit]
    rfl
  · intro st name cmd st2 hwf hreg
    unfold TestCommandManager.register at hreg
    cases hn : TestCommandManager.normalise cmd with
    | error e => rw [hn] at hreg; exact absurd hreg (by simp)
    | ok seqs =>
      rw [hn] at hreg
      injection hreg with hreg
      subst hreg
      intro e he
      cases he with
      | head => exact normalise_ok_wf hn
      | tail _ he => exact hwf e he
  · intro st spec seqs hwf hres v hv
    exact List.length_pos.mpr (resolve_all_ok_vectors hwf hres v hv)
  · intro st spec v hwf hres
    unfold TestCommandManager.resolve at hres
    cases hra : TestCommandManager.resolve_all st spec with
    | error e => rw [hra] at hres; exact absurd hres (by simp)
    | ok seqs =>
      rw [hra] at hres
      cases seqs with
      | nil => exact absurd hres (by simp)
      | cons c rest =>
        injection hres with hres
        subst hres
        exact List.length_pos.mpr
          (resolve_all_ok_vectors hwf hra _ (List.mem_cons_self _ _))

/-- Witness for claim C9: a white space only specification over the empty
registry. -/
theorem claim_C9_witness :
    TestCommandManager.resolve_all [] ("  ") = .error TestCommandManager.emptySpecMessage :=
  claim_C9.1 [] ("  ") (by decide) (by decide) rfl
